import Mathlib

/-!
Verification of the `templater` program (src/templater/src/main.rs) against its
natural-language specification.

The program is a linear pipeline: parse CLI arguments, resolve a transposition
key against a fixed table, read and parse the song files, sort songs by title,
load seven template files (substituting transposition placeholders), and write
one assembled songbook file.

Conventions of the embedding:
* Rust `String`s are Lean `String`s; where character-level reasoning is needed
  we work on `String.data : List Char`.  Rust compares strings byte-wise on
  UTF-8, which coincides with code-point lexicographic order, embedded below
  as `lexLe`.
* Fallible operations return `Except`.
* File-system state is an explicit `Env` value: the contents of the discovered
  song files in discovery order, and the (possibly missing) template files.
* `src/templater/src/models.rs` and `src/templater/src/utils.rs` and the
  `extract_frontmatter` crate are not among the provided sources; definitions
  taken from the specification instead of the source carry a doc comment
  starting with `Modelled from the spec:`.
-/

deriving instance DecidableEq for Except

namespace OpenBook

/-- Transposition record, from `models.rs` usage in `main.rs`:
a display label and a lilypond transposition directive. -/
structure TransposeText where
  display_text : String
  lilypond_text : String
deriving DecidableEq, Repr

/-- Embedding of `transpose_text` (src/templater/src/main.rs:106-132): exact
match lookup in the fixed table; any other input yields the formatted error. -/
def transpose_text (input : String) : Except String TransposeText :=
  match input with
  | "c" => .ok { display_text := "Concert", lilypond_text := "c c" }
  | "bb" => .ok { display_text := "Bb", lilypond_text := "c d" }
  | "eb" => .ok { display_text := "Eb", lilypond_text := "ees c" }
  | "testing-f" => .ok { display_text := "Testing", lilypond_text := "c g" }
  | _ => .error ("Unable to parse transpose input of [" ++ input ++ "]")

/-- Byte-lexicographic (equivalently code-point lexicographic) order on
character lists, mirroring Rust's `str::cmp` used at main.rs:89. -/
def lexLe : List Char → List Char → Bool
  | [], _ => true
  | _ :: _, [] => false
  | a :: as, b :: bs => if a = b then lexLe as bs else decide (a < b)

/-- Title order on strings used by the sort at main.rs:89. -/
def titleLe (a b : String) : Bool := lexLe a.data b.data

theorem lexLe_refl (l : List Char) : lexLe l l = true := by
  induction l with
  | nil => rfl
  | cons a as ih => simp [lexLe, ih]

theorem lexLe_total (a b : List Char) : lexLe a b = true ∨ lexLe b a = true := by
  induction a generalizing b with
  | nil => exact .inl rfl
  | cons x xs ih =>
    cases b with
    | nil => exact .inr rfl
    | cons y ys =>
      by_cases hxy : x = y
      · subst hxy
        simpa [lexLe] using ih ys
      · rcases lt_trichotomy x y with h | h | h
        · left; simp [lexLe, hxy, h]
        · exact absurd h hxy
        · right
          have hyx : y ≠ x := fun e => hxy e.symm
          simp [lexLe, hyx, h]

theorem lexLe_trans {a b c : List Char} (h₁ : lexLe a b = true)
    (h₂ : lexLe b c = true) : lexLe a c = true := by
  induction a generalizing b c with
  | nil => rfl
  | cons x xs ih =>
    cases b with
    | nil => simp [lexLe] at h₁
    | cons y ys =>
      cases c with
      | nil => simp [lexLe] at h₂
      | cons z zs =>
        by_cases hxy : x = y
        · subst hxy
          by_cases hyz : x = z
          · subst hyz
            simp [lexLe] at h₁ h₂ ⊢
            exact ih h₁ h₂
          · simp [lexLe, hyz] at h₂ ⊢
            exact h₂
        · simp [lexLe, hxy] at h₁
          by_cases hyz : y = z
          · subst hyz
            simp [lexLe, hxy]
            exact h₁
          · simp [lexLe, hyz] at h₂
            have hxz : x < z := lt_trans h₁ h₂
            have hne : x ≠ z := ne_of_lt hxz
            simp [lexLe, hne, hxz]

/-- Boolean test that `p` is an initial segment of `l`. -/
def leadsWith : List Char → List Char → Bool
  | [], _ => true
  | _ :: _, [] => false
  | a :: as, b :: bs => a = b && leadsWith as bs

theorem leadsWith_iff {p l : List Char} :
    leadsWith p l = true ↔ ∃ t, l = p ++ t := by
  induction p generalizing l with
  | nil => simp [leadsWith]
  | cons a as ih =>
    cases l with
    | nil =>
      simp [leadsWith]
    | cons b bs =>
      simp only [leadsWith, Bool.and_eq_true, decide_eq_true_eq]
      constructor
      · rintro ⟨rfl, h⟩
        obtain ⟨t, rfl⟩ := ih.mp h
        exact ⟨t, rfl⟩
      · rintro ⟨t, ht⟩
        injection ht with h1 h2
        exact ⟨h1.symm, ih.mpr ⟨t, h2⟩⟩

/-- Occurrence of `pat` as a contiguous substring of `s`. -/
def occursIn (pat s : List Char) : Prop := ∃ l r, s = l ++ pat ++ r

/-- Occurrence of one string inside another, at the character level. -/
def occursInS (pat s : String) : Prop := occursIn pat.data s.data

/-- Fuel-indexed worker for `replaceAll`: a left-to-right scan replacing each
non-overlapping occurrence of `pat` by `rep`, as Rust's `str::replace` does;
the fuel (instantiated to the input length) keeps the recursion structural. -/
def replaceAllFuel (pat rep : List Char) : Nat → List Char → List Char
  | _, [] => []
  | 0, c :: cs => c :: cs
  | n + 1, c :: cs =>
    if leadsWith pat (c :: cs) then
      rep ++ replaceAllFuel pat rep n (cs.drop (pat.length - 1))
    else
      c :: replaceAllFuel pat rep n cs

/-- Left-to-right non-overlapping replacement of `pat` by `rep` (`pat` is
assumed nonempty; the wrapper guards the empty case, which is never used by
the program). -/
def replaceAllAux (pat rep s : List Char) : List Char :=
  replaceAllFuel pat rep s.length s

/-- Embedding of Rust's `str::replace` as used at main.rs:138-141 and
main.rs:165-167: every occurrence of `pat` in `s` is replaced by `rep`. -/
def replaceAll (s pat rep : String) : String :=
  if pat.data.isEmpty then s
  else String.mk (replaceAllAux pat.data rep.data s.data)

theorem replaceAllFuel_eq_of_le (pat rep : List Char) :
    ∀ n m (s : List Char), s.length ≤ n → s.length ≤ m →
      replaceAllFuel pat rep n s = replaceAllFuel pat rep m s := by
  intro n
  induction n with
  | zero =>
    intro m s hn _
    have : s = [] := List.length_eq_zero.mp (Nat.le_zero.mp hn)
    subst this
    cases m <;> rfl
  | succ n ih =>
    intro m s hn hm
    cases s with
    | nil => cases m <;> rfl
    | cons c cs =>
      cases m with
      | zero => simp at hm
      | succ m =>
        simp only [List.length_cons, Nat.succ_le_succ_iff] at hn hm
        have hl : replaceAllFuel pat rep (n + 1) (c :: cs)
            = if leadsWith pat (c :: cs) then
                rep ++ replaceAllFuel pat rep n (cs.drop (pat.length - 1))
              else c :: replaceAllFuel pat rep n cs := rfl
        have hr : replaceAllFuel pat rep (m + 1) (c :: cs)
            = if leadsWith pat (c :: cs) then
                rep ++ replaceAllFuel pat rep m (cs.drop (pat.length - 1))
              else c :: replaceAllFuel pat rep m cs := rfl
        rw [hl, hr]
        by_cases hp : leadsWith pat (c :: cs) = true
        · rw [if_pos hp, if_pos hp, ih m (cs.drop (pat.length - 1))
            (le_trans (by rw [List.length_drop]; omega) hn)
            (le_trans (by rw [List.length_drop]; omega) hm)]
        · rw [if_neg hp, if_neg hp, ih m cs hn hm]

theorem replaceAllAux_nil (pat rep : List Char) :
    replaceAllAux pat rep [] = [] := rfl

theorem replaceAllAux_cons (pat rep : List Char) (c : Char) (cs : List Char) :
    replaceAllAux pat rep (c :: cs) =
      if leadsWith pat (c :: cs) then
        rep ++ replaceAllAux pat rep (cs.drop (pat.length - 1))
      else
        c :: replaceAllAux pat rep cs := by
  show (if leadsWith pat (c :: cs) then
      rep ++ replaceAllFuel pat rep cs.length (cs.drop (pat.length - 1))
    else c :: replaceAllFuel pat rep cs.length cs) = _
  by_cases hp : leadsWith pat (c :: cs) = true
  · rw [if_pos hp, if_pos hp]
    rw [replaceAllFuel_eq_of_le pat rep cs.length (cs.drop (pat.length - 1)).length
      (cs.drop (pat.length - 1)) (by rw [List.length_drop]; omega) le_rfl]
    rfl
  · rw [if_neg hp, if_neg hp]
    rfl

/-- Replacing an occurring pattern makes the replacement text occur in the
result. -/
theorem occursIn_rep_replaceAllAux {pat : List Char} (rep : List Char)
    (hpat : pat ≠ []) :
    ∀ s : List Char, occursIn pat s → occursIn rep (replaceAllAux pat rep s)
  | [], h => by
    obtain ⟨l, r, hl⟩ := h
    have hlen := congrArg List.length hl
    simp only [List.length_nil, List.length_append] at hlen
    exact absurd (List.length_eq_zero.mp (by omega)) hpat
  | c :: cs, h => by
    rw [replaceAllAux_cons]
    by_cases hp : leadsWith pat (c :: cs) = true
    · rw [if_pos hp]
      exact ⟨[], replaceAllAux pat rep (cs.drop (pat.length - 1)), rfl⟩
    · rw [if_neg hp]
      obtain ⟨l, r, hl⟩ := h
      cases l with
      | nil =>
        exact absurd (leadsWith_iff.mpr ⟨r, by simpa using hl⟩) hp
      | cons x xs =>
        injection hl with h1 h2
        obtain ⟨l', r', hr⟩ :=
          occursIn_rep_replaceAllAux rep hpat cs ⟨xs, r, h2⟩
        exact ⟨c :: l', r', by simp [hr]⟩

/-- A block of characters sharing no character with the pattern is copied
verbatim by the replacement scan. -/
theorem replaceAllAux_append_of_disjoint {pat rep w : List Char}
    (hpat : pat ≠ []) (hdisj : ∀ c ∈ w, c ∉ pat) (t : List Char) :
    replaceAllAux pat rep (w ++ t) = w ++ replaceAllAux pat rep t := by
  induction w with
  | nil => simp
  | cons c cs ih =>
    have hnp : leadsWith pat (c :: (cs ++ t)) ≠ true := by
      intro hp
      obtain ⟨u, hu⟩ := leadsWith_iff.mp hp
      cases pat with
      | nil => exact hpat rfl
      | cons p ps =>
        injection hu with h1 _
        exact hdisj c (List.mem_cons_self c cs) (h1 ▸ List.mem_cons_self p ps)
    rw [List.cons_append, replaceAllAux_cons, if_neg hnp,
      ih (fun x hx => hdisj x (List.mem_cons_of_mem c hx))]
    rfl

/-- An occurrence of `w` survives replacement of a pattern sharing no
character with `w`. -/
theorem occursIn_replaceAllAux_of_disjoint {pat rep w : List Char}
    (hpat : pat ≠ []) (hw : w ≠ []) (hdisj : ∀ c ∈ w, c ∉ pat) :
    ∀ n (s : List Char), s.length ≤ n → occursIn w s →
      occursIn w (replaceAllAux pat rep s) := by
  intro n
  induction n with
  | zero =>
    intro s hs h
    obtain ⟨l, r, rfl⟩ := h
    have h0 := Nat.le_zero.mp hs
    simp only [List.length_append] at h0
    exact absurd (List.length_eq_zero.mp (by omega)) hw
  | succ n ih =>
    intro s hs h
    obtain ⟨l, r, rfl⟩ := h
    by_cases hp : leadsWith pat (l ++ w ++ r) = true
    · obtain ⟨tail, htail⟩ := leadsWith_iff.mp hp
      -- the pattern match cannot overlap `w`, so `pat.length ≤ l.length`
      have hple : pat.length ≤ l.length := by
        by_contra hlt
        push_neg at hlt
        have hdrop : (l ++ w ++ r).drop l.length = w ++ r := by
          rw [List.append_assoc, List.drop_append_eq_append_drop]
          simp
        have hdrop' : (l ++ w ++ r).drop l.length
            = pat.drop l.length ++ tail := by
          rw [htail, List.drop_append_eq_append_drop,
            Nat.sub_eq_zero_of_le (Nat.le_of_lt hlt)]
          simp
        have hpd : pat.drop l.length ≠ [] := by
          intro hnil
          have := congrArg List.length hnil
          simp at this
          omega
        have hweq : w ++ r = pat.drop l.length ++ tail := by
          rw [← hdrop, hdrop']
        have hwne : w ≠ [] := hw
        obtain ⟨wa, was, rfl⟩ := List.exists_cons_of_ne_nil hwne
        obtain ⟨pa, pas, hpa⟩ := List.exists_cons_of_ne_nil hpd
        rw [hpa] at hweq
        injection hweq with h1 _
        have hmem : wa ∈ pat := by
          have : pa ∈ pat.drop l.length := hpa ▸ List.mem_cons_self pa pas
          exact h1 ▸ List.mem_of_mem_drop this
        exact hdisj wa (List.mem_cons_self wa was) hmem
      -- recurse on the remainder after the matched pattern
      cases hse : l ++ w ++ r with
      | nil =>
        have hlen0 := congrArg List.length hse
        simp only [List.length_append, List.length_nil] at hlen0
        exact absurd (List.length_eq_zero.mp (by omega)) hw
      | cons c cs =>
        rw [hse] at hp
        rw [replaceAllAux_cons, if_pos hp]
        have hl2 : ∃ l₂, l = pat ++ l₂ := by
          obtain ⟨u, hu⟩ := leadsWith_iff.mp hp
          rw [← hse] at hu
          refine ⟨l.drop pat.length, ?_⟩
          have : (l ++ w ++ r).take pat.length = pat := by
            rw [hu]
            simp [List.take_left]
          have hlt : l.take pat.length = pat := by
            rw [List.append_assoc] at this
            rw [← this, List.take_append_eq_append_take,
              Nat.sub_eq_zero_of_le hple]
            simp
          conv_lhs => rw [← List.take_append_drop pat.length l]
          rw [hlt]
        obtain ⟨l₂, rfl⟩ := hl2
        have hdrop : cs.drop (pat.length - 1) = l₂ ++ w ++ r := by
          have h1 : (pat ++ l₂ ++ w ++ r).drop pat.length = l₂ ++ w ++ r := by
            rw [List.append_assoc, List.append_assoc,
              List.drop_append_eq_append_drop]
            simp [List.append_assoc]
          rw [← h1, hse]
          cases pat with
          | nil => exact absurd rfl hpat
          | cons p ps => simp
        rw [hdrop]
        have hlen : (l₂ ++ w ++ r).length ≤ n := by
          have h2 : 1 ≤ pat.length := by
            cases pat with
            | nil => exact absurd rfl hpat
            | cons _ _ => simp
          have h3 := hs
          simp only [List.length_append] at h3 ⊢
          omega
        obtain ⟨l', r', hres⟩ := ih (l₂ ++ w ++ r) hlen ⟨l₂, r, rfl⟩
        exact ⟨rep ++ l', r', by rw [hres]; simp⟩
    · cases l with
      | nil =>
        simp only [List.nil_append] at hp ⊢
        obtain ⟨wa, was, rfl⟩ := List.exists_cons_of_ne_nil hw
        simp only [List.cons_append] at hp ⊢
        rw [replaceAllAux_cons, if_neg hp]
        rw [replaceAllAux_append_of_disjoint hpat
          (fun x hx => hdisj x (List.mem_cons_of_mem wa hx)) r]
        exact ⟨[], replaceAllAux pat rep r, by simp⟩
      | cons la las =>
        rw [List.cons_append, List.cons_append] at hp ⊢
        rw [replaceAllAux_cons, if_neg hp]
        have hlen : (las ++ w ++ r).length ≤ n := by
          have := hs
          simp at this ⊢
          omega
        obtain ⟨l', r', hres⟩ := ih (las ++ w ++ r) hlen ⟨las, r, rfl⟩
        exact ⟨la :: l', r', by rw [hres]; simp⟩

/-- Splitting a character list at newline characters; the inverse of
`joinLinesC`. -/
def splitLinesC : List Char → List (List Char)
  | [] => [[]]
  | c :: cs =>
    if c = '\n' then [] :: splitLinesC cs
    else
      match splitLinesC cs with
      | [] => [[c]]
      | l :: ls => (c :: l) :: ls

/-- Joining lines with newline separators. -/
def joinLinesC : List (List Char) → List Char
  | [] => []
  | [l] => l
  | l :: ls => l ++ '\n' :: joinLinesC ls

theorem splitLinesC_ne_nil (s : List Char) : splitLinesC s ≠ [] := by
  induction s with
  | nil => simp [splitLinesC]
  | cons c cs ih =>
    by_cases h : c = '\n'
    · simp [splitLinesC, h]
    · simp only [splitLinesC, if_neg h]
      cases hs : splitLinesC cs with
      | nil => simp
      | cons l ls => simp

theorem joinLinesC_cons (l : List Char) (ls : List (List Char)) (h : ls ≠ []) :
    joinLinesC (l :: ls) = l ++ '\n' :: joinLinesC ls := by
  cases ls with
  | nil => exact absurd rfl h
  | cons m ms => rfl

theorem joinLinesC_splitLinesC (s : List Char) :
    joinLinesC (splitLinesC s) = s := by
  induction s with
  | nil => rfl
  | cons c cs ih =>
    by_cases h : c = '\n'
    · subst h
      have hsp : splitLinesC ('\n' :: cs) = [] :: splitLinesC cs := by
        simp [splitLinesC]
      rw [hsp, joinLinesC_cons _ _ (splitLinesC_ne_nil cs), ih]
      rfl
    · simp only [splitLinesC, if_neg h]
      cases hs : splitLinesC cs with
      | nil => exact absurd hs (splitLinesC_ne_nil cs)
      | cons l ls =>
        rw [hs] at ih
        cases ls with
        | nil =>
          simp only [joinLinesC] at ih ⊢
          rw [ih]
        | cons m ms =>
          rw [joinLinesC_cons _ _ (by simp)] at ih
          rw [joinLinesC_cons _ _ (by simp), ← ih]
          rfl

/-- Leading and trailing whitespace removal, mirroring the whitespace
stripping applied by the extraction step. -/
def trimC (l : List Char) : List Char :=
  ((l.dropWhile Char.isWhitespace).reverse.dropWhile Char.isWhitespace).reverse

/-- The frontmatter terminator line `---` (main.rs:82). -/
def termLine : List Char := ['-', '-', '-']

/-- Lines before the first terminator line of a song text. -/
def preOf (text : String) : List (List Char) :=
  (splitLinesC text.data).takeWhile (fun l => decide (l ≠ termLine))

/-- Lines after the first terminator line of a song text. -/
def postOf (text : String) : List (List Char) :=
  (splitLinesC text.data).drop ((preOf text).length + 1)

/-- Modelled from the spec: the Frontmatter Extractor is the external
`extract_frontmatter` crate invoked at main.rs:81-84, whose sources are not
part of this repository.  Per §4.1 it splits the text into the lines before
the first standalone `---` line and the remaining document, stripping
whitespace from both parts; when the terminator is absent §4.1 notes that the
source's behavior is an unchecked silent fallback (no failure), which we model
as every line being consumed as (trimmed) metadata with an empty document. -/
def extractParts (text : String) : List (List Char) × List Char :=
  if termLine ∈ splitLinesC text.data then
    ((preOf text).map trimC, trimC (joinLinesC (postOf text)))
  else
    ((splitLinesC text.data).map trimC, [])

theorem split_at_term (ls : List (List Char)) (h : termLine ∈ ls) :
    ∃ post, ls = ls.takeWhile (fun l => decide (l ≠ termLine))
        ++ termLine :: post
      ∧ ls.drop ((ls.takeWhile (fun l => decide (l ≠ termLine))).length + 1)
        = post
      ∧ termLine ∉ ls.takeWhile (fun l => decide (l ≠ termLine)) := by
  induction ls with
  | nil => cases h
  | cons x xs ih =>
    by_cases hx : x = termLine
    · subst hx
      refine ⟨xs, ?_, ?_, ?_⟩
      · simp [List.takeWhile]
      · simp [List.takeWhile]
      · simp [List.takeWhile]
    · have hmem : termLine ∈ xs := by
        cases h with
        | head => exact absurd rfl hx
        | tail _ h2 => exact h2
      obtain ⟨post, h1, h2, h3⟩ := ih hmem
      have htw : (x :: xs).takeWhile (fun l => decide (l ≠ termLine))
          = x :: xs.takeWhile (fun l => decide (l ≠ termLine)) := by
        simp [List.takeWhile, hx]
      refine ⟨post, ?_, ?_, ?_⟩
      · rw [htw, List.cons_append]
        exact congrArg (x :: ·) h1
      · rw [htw]
        simpa using h2
      · rw [htw]
        intro hmem2
        cases hmem2 with
        | head => exact hx rfl
        | tail _ h4 => exact h3 h4

/-- Modelled from the spec: the Metadata Parser (§4.2) lives in
`src/templater/src/models.rs`, which is not among the provided sources.  A
metadata line is `key: value`; the key is the trimmed text before the first
colon and the value the trimmed text after it; lines without a colon carry no
key/value pair. -/
def keyValOf (l : List Char) : Option (List Char × List Char) :=
  if (':') ∈ l then
    some (trimC (l.takeWhile (fun c => decide (c ≠ ':'))),
          trimC ((l.dropWhile (fun c => decide (c ≠ ':'))).tail))
  else none

/-- First value bound to key `k` among the metadata lines. -/
def fieldValue (k : List Char) : List (List Char) → Option (List Char)
  | [] => none
  | l :: ls =>
    match keyValOf l with
    | some (key, v) => if key = k then some v else fieldValue k ls
    | none => fieldValue k ls

def titleKey : List Char := ['t', 'i', 't', 'l', 'e']

def composerKey : List Char := ['c', 'o', 'm', 'p', 'o', 's', 'e', 'r']

def meterKey : List Char := ['m', 'e', 't', 'e', 'r']

def bpmKey : List Char := ['b', 'p', 'm']

/-- Song record, from the `Song` usage in main.rs and the data model of §3:
metadata fields, the body, and the transposition handed to `Song::new`
(main.rs:85). -/
structure Song where
  title : String
  composer : String
  meter : String
  bpm : String
  body : String
  transpose : TransposeText
deriving DecidableEq, Repr

/-- Error taxonomy of §7 for the stages past argument parsing. -/
inductive TemplaterError
  | MissingTitle
  | MissingFrontmatter
  | TemplateLoadFailure (name : String)
deriving DecidableEq, Repr

/-- Modelled from the spec: `Song::new` (models.rs, not among the provided
sources).  Per §4.2 a missing `title` field is a hard `MissingTitle` error and
the other recognized fields default to the empty string. -/
def parseSongFile (t : TransposeText) (text : String) :
    Except TemplaterError Song :=
  match fieldValue titleKey (extractParts text).1 with
  | none => .error .MissingTitle
  | some ti =>
      .ok { title := String.mk ti,
            composer := String.mk
              ((fieldValue composerKey (extractParts text).1).getD []),
            meter := String.mk
              ((fieldValue meterKey (extractParts text).1).getD []),
            bpm := String.mk
              ((fieldValue bpmKey (extractParts text).1).getD []),
            body := String.mk (extractParts text).2,
            transpose := t }

/-- Order used by the sort at main.rs:89 (`sort_by` on `title.cmp`). -/
def songLe (a b : Song) : Prop := titleLe a.title b.title = true

instance decSongLe : DecidableRel songLe := fun a b =>
  if h : titleLe a.title b.title = true then isTrue h else isFalse h

instance totalSongLe : IsTotal Song songLe :=
  ⟨fun a b => lexLe_total a.title.data b.title.data⟩

instance transSongLe : IsTrans Song songLe :=
  ⟨fun _ _ _ h₁ h₂ => lexLe_trans h₁ h₂⟩

/-- Embedding of `songs.sort_by(|a, b| a.title.cmp(&b.title))` (main.rs:89).
Rust's `sort_by` is a stable sort; any two stable sorts for the same total
preorder agree, so it is embedded as insertion sort. -/
def sortSongs (l : List Song) : List Song := List.insertionSort songLe l

theorem filter_orderedInsert_title (tt : String) (x : Song) (l : List Song) :
    (List.orderedInsert songLe x l).filter (fun s => s.title == tt)
      = if x.title == tt
        then x :: l.filter (fun s => s.title == tt)
        else l.filter (fun s => s.title == tt) := by
  induction l with
  | nil =>
    by_cases hx : x.title == tt
    · simp [List.orderedInsert, List.filter, hx]
    · simp [List.orderedInsert, List.filter, hx]
  | cons b bs ih =>
    by_cases hle : songLe x b
    · rw [List.orderedInsert, if_pos hle]
      by_cases hx : x.title == tt
      · simp [List.filter, hx]
      · simp only [List.filter, hx]
        rw [if_neg (by simp [hx])]
    · rw [List.orderedInsert, if_neg hle]
      have hbx : b.title ≠ x.title := by
        intro he
        exact hle (show titleLe x.title b.title = true from he ▸ lexLe_refl _)
      by_cases hx : x.title == tt
      · have hxe : x.title = tt := by simpa using hx
        have hb : (b.title == tt) = false := by
          simp only [beq_eq_false_iff_ne]
          exact fun he => hbx (he.trans hxe.symm)
        simp only [List.filter, hb, ih, hx, if_pos]
      · simp only [List.filter, ih, hx, if_neg]
        cases hb : b.title == tt <;> simp

/-- Stability of the embedded sort: restricting to any one title preserves
the original relative order. -/
theorem filter_sortSongs (tt : String) (l : List Song) :
    (sortSongs l).filter (fun s => s.title == tt)
      = l.filter (fun s => s.title == tt) := by
  induction l with
  | nil => rfl
  | cons x xs ih =>
    simp only [sortSongs] at ih ⊢
    show (List.orderedInsert songLe x
        (List.insertionSort songLe xs)).filter (fun s => s.title == tt) = _
    rw [filter_orderedInsert_title]
    by_cases hx : x.title == tt
    · rw [if_pos hx, ih]
      simp [List.filter_cons, hx]
    · rw [if_neg hx, ih]
      simp [List.filter_cons, hx]

/-- Modelled from the spec: `capitalize_first_letter_ascii` lives in
src/templater/src/utils.rs, which is not among the provided sources; as used
at main.rs:137-140 it upper-cases the first (ASCII) letter of the display
text. -/
def capitalize_first_letter_ascii (s : String) : String :=
  match s.data with
  | [] => ""
  | c :: cs => String.mk (c.toUpper :: cs)

/-- Contents of the seven template files under `./templates`; `none` marks a
missing or unreadable file. -/
structure Templates where
  intro : Option String
  bookpart : Option String
  songBody : Option String
  songHeader : Option String
  voice : Option String
  lyrics : Option String
  chords : Option String
deriving DecidableEq, Repr

/-- The template strings held in the once-initialized global slots after
`init_static` ran. -/
structure LoadedTemplates where
  intro : String
  bookpart : String
  songBody : String
  songHeader : String
  voice : String
  lyrics : String
  chords : String
deriving DecidableEq, Repr

def transposeToken : String := "%%TRANSPOSE%%"

def numTunesToken : String := "%%NUM_TUNES%%"

/-- Embedding of `init_static` (main.rs:135-183): loads the seven template
files in source order, failing on the first missing one, substituting the
capitalized transposition display text and the song count into the intro
template and the lilypond directive into the voice template. -/
def init_static (tp : Templates) (t : TransposeText) (numSongs : Nat) :
    Except String LoadedTemplates :=
  match tp.intro with
  | none => .error "intro"
  | some rawIntro =>
  match tp.bookpart with
  | none => .error "bookpart"
  | some rawBookpart =>
  match tp.songBody with
  | none => .error "song-body"
  | some rawSongBody =>
  match tp.songHeader with
  | none => .error "song-header"
  | some rawSongHeader =>
  match tp.voice with
  | none => .error "voice"
  | some rawVoice =>
  match tp.lyrics with
  | none => .error "lyrics"
  | some rawLyrics =>
  match tp.chords with
  | none => .error "chords"
  | some rawChords =>
    .ok { intro := replaceAll (replaceAll rawIntro transposeToken
            (capitalize_first_letter_ascii t.display_text)) numTunesToken
            (toString numSongs),
          bookpart := rawBookpart,
          songBody := rawSongBody,
          songHeader := rawSongHeader,
          voice := replaceAll rawVoice transposeToken t.lilypond_text,
          lyrics := rawLyrics,
          chords := rawChords }

def titleToken : String := "%%TITLE%%"

def composerToken : String := "%%COMPOSER%%"

def meterToken : String := "%%METER%%"

def bpmToken : String := "%%BPM%%"

def songBodyToken : String := "%%SONG_BODY%%"

/-- Modelled from the spec: song rendering (`Song::write`, models.rs, not
among the provided sources).  Per §4.5 the header template has the metadata
fields substituted into its slots; tokens follow the `%%NAME%%` convention
shown in §6. -/
def renderHeader (tpl : String) (s : Song) : String :=
  replaceAll (replaceAll (replaceAll (replaceAll tpl titleToken s.title)
    composerToken s.composer) meterToken s.meter) bpmToken s.bpm

/-- Modelled from the spec: per §4.5 the voice template (whose transposition
slot `init_static` already filled) has the song's body content substituted
into its body slot. -/
def renderVoiceBlock (voiceTpl : String) (s : Song) : String :=
  replaceAll voiceTpl songBodyToken s.body

/-- Modelled from the spec: one rendered song block is the rendered header
followed by the rendered voice, lyrics and chords parts (§4.5). -/
def renderSongBlock (tpls : LoadedTemplates) (s : Song) : String :=
  renderHeader tpls.songHeader s ++ renderVoiceBlock tpls.voice s
    ++ replaceAll tpls.lyrics songBodyToken s.body
    ++ replaceAll tpls.chords songBodyToken s.body

/-- Observable steps of a run, in execution order. -/
inductive Event
  | parsedSong (title : String)
  | templateFailed (name : String)
  | templatesLoaded
  | createdFile (name : String)
  | wroteIntro
  | wroteSong (title : String)
  | wroteClosing
deriving DecidableEq, Repr

/-- Embedding of the song-parsing loop (main.rs:77-88), with the trace of
parsed songs in discovery order. -/
def parseSongsTr (t : TransposeText) :
    List String → List Event × Except TemplaterError (List Song)
  | [] => ([], .ok [])
  | f :: fs =>
    match parseSongFile t f with
    | .error e => ([], .error e)
    | .ok s =>
      match parseSongsTr t fs with
      | (evs, .error e) => (Event.parsedSong s.title :: evs, .error e)
      | (evs, .ok ss) => (Event.parsedSong s.title :: evs, .ok (s :: ss))

/-- File-system inputs of one run: the contents of the discovered
`./songs/*.ly` files in discovery order, and the template files. -/
structure Env where
  songFiles : List String
  templates : Templates
deriving DecidableEq, Repr

/-- The single output file of a successful run, together with the data it was
assembled from. -/
structure BookFile where
  name : String
  intro : String
  songs : List Song
  voiceBlocks : List String
  content : String
deriving DecidableEq, Repr

/-- Output filename, from `format!("openbook-{}.ly", display_text)` at
main.rs:92. -/
def outputFilename (t : TransposeText) : String :=
  "openbook-" ++ t.display_text ++ ".ly"

/-- Embedding of the body of `main` past transposition resolution
(main.rs:75-103): parse every song file, sort by title, load the templates,
then create `openbook-<display>.ly` and write the intro, each rendered song
block, and the closing brace; a parse or template failure aborts before the
output file is created. -/
def run (env : Env) (t : TransposeText) :
    List Event × Except TemplaterError BookFile :=
  match parseSongsTr t env.songFiles with
  | (evs, .error e) => (evs, .error e)
  | (evs, .ok songs) =>
    match init_static env.templates t (sortSongs songs).length with
    | .error name =>
      (evs ++ [Event.templateFailed name], .error (.TemplateLoadFailure name))
    | .ok tpls =>
      (evs ++ [Event.templatesLoaded,
          Event.createdFile (outputFilename t), Event.wroteIntro]
          ++ (sortSongs songs).map (fun s => Event.wroteSong s.title)
          ++ [Event.wroteClosing],
        .ok { name := outputFilename t,
              intro := tpls.intro,
              songs := sortSongs songs,
              voiceBlocks := (sortSongs songs).map (renderVoiceBlock tpls.voice),
              content := tpls.intro
                ++ String.join ((sortSongs songs).map (renderSongBlock tpls))
                ++ "\x7d" })

/-- Argument-parsing failures of the `pico_args` crate as used by this
program (spec §7: `ArgParseError`). -/
inductive ArgsError
  | optionWithoutAValue (key : String)
deriving DecidableEq, Repr

/-- Modelled from the `pico_args` crate (an external dependency, used at
main.rs:39-41, sources not in this repository):
`opt_value_from_str("--transpose")` takes the argument following the first
exact `--transpose` argument as its value, failing with
`OptionWithoutAValue` when there is none; failing that it accepts a
`--transpose=value` argument; otherwise the option is absent.  It returns the
value and the remaining arguments. -/
def findTransposeValue (argv : List String) :
    Except ArgsError (Option String × List String) :=
  match argv.findIdx? (fun a => a == "--transpose") with
  | some i =>
    match argv[i + 1]? with
    | none => .error (.optionWithoutAValue "--transpose")
    | some v => .ok (some v, (argv.eraseIdx (i + 1)).eraseIdx i)
  | none =>
    match argv.findIdx? (fun a => leadsWith "--transpose=".data a.data) with
    | some i =>
      .ok (some ((argv.getD i "").drop "--transpose=".length),
        argv.eraseIdx i)
    | none => .ok (none, argv)

/-- Result of `parse_args`: help printed and process exited 0, or parsed
arguments plus the unconsumed rest, or a parse error. -/
inductive ParseOutcome
  | helpExit
  | ok (transpose : Option String) (unused : List String)
  | err (e : ArgsError)
deriving DecidableEq, Repr

/-- Embedding of `parse_args` (main.rs:38-56): the `--transpose` value is
extracted first (a failure propagates through `?`), and only afterwards is
the help flag checked, which prints usage and exits 0. -/
def parse_args (argv : List String) : ParseOutcome :=
  match findTransposeValue argv with
  | .error e => .err e
  | .ok (v, rem) =>
    if rem.contains "-h" || rem.contains "--help" then .helpExit
    else .ok v rem

/-- What the process reported when it exited during startup. -/
inductive ErrOut
  | argError (e : ArgsError)
  | resolveError (msg : String)
deriving DecidableEq, Repr

/-- Exit code, whether usage text was printed, and any error output. -/
structure ExitInfo where
  code : Nat
  printedUsage : Bool
  err : Option ErrOut
deriving DecidableEq, Repr

/-- Outcome of the prologue of `main`: an early exit, or the pipeline
proceeds with the resolved transposition. -/
inductive MainOutcome
  | exited (info : ExitInfo)
  | proceeded (t : TransposeText)
deriving DecidableEq, Repr

/-- Embedding of the prologue of `main` (main.rs:58-74): an argument-parse
failure exits 1; help exits 0 after printing usage; otherwise the
transposition key (default "c") is resolved, an unknown key printing the
error and exiting 0, and a resolved one letting the run proceed. -/
def mainEntry (argv : List String) : MainOutcome :=
  match parse_args argv with
  | .err e =>
    .exited { code := 1, printedUsage := false, err := some (.argError e) }
  | .helpExit => .exited { code := 0, printedUsage := true, err := none }
  | .ok v _ =>
    match transpose_text (v.getD "c") with
    | .error m =>
      .exited { code := 0, printedUsage := false, err := some (.resolveError m) }
    | .ok t => .proceeded t

/-- The `"c"` table entry, used as a concrete transposition in examples. -/
def cT : TransposeText := { display_text := "Concert", lilypond_text := "c c" }

/-- The `"bb"` table entry, used as a concrete transposition in examples. -/
def bbT : TransposeText := { display_text := "Bb", lilypond_text := "c d" }

/-- A concrete song with only the title populated, for the ordering
example. -/
def exampleSong (t : String) : Song :=
  { title := t, composer := "", meter := "", bpm := "", body := ""
    transpose := cT }

/-- A concrete, fully present template set for example runs. -/
def wTemplates : Templates :=
  { intro := some "intro %%TRANSPOSE%% has %%NUM_TUNES%% tunes"
    bookpart := some "bp"
    songBody := some "sb"
    songHeader := some "head %%TITLE%%"
    voice := some "voice %%TRANSPOSE%% body %%SONG_BODY%% end"
    lyrics := some "lyr %%SONG_BODY%%"
    chords := some "ch %%SONG_BODY%%" }

/-- A concrete song file with frontmatter, terminator and body. -/
def wSongText : String := "title: X\n---\nbody"

/-- A concrete environment: one song file, all templates present. -/
def wEnv : Env := { songFiles := [wSongText], templates := wTemplates }

/-- The song parsed from `wSongText` under transposition `t`. -/
def wSong (t : TransposeText) : Song :=
  { title := "X", composer := "", meter := "", bpm := "", body := "body"
    transpose := t }

/-- The book produced by running `wEnv` with the `"bb"` transposition. -/
def wBookBb : BookFile :=
  { name := "openbook-Bb.ly"
    intro := "intro Bb has 1 tunes"
    songs := [wSong bbT]
    voiceBlocks := ["voice c d body body end"]
    content :=
      "intro Bb has 1 tuneshead Xvoice c d body body endlyr bodych body\x7d" }

/-- The trace of running `wEnv` with the `"bb"` transposition. -/
def wTraceBb : List Event :=
  [Event.parsedSong "X", Event.templatesLoaded,
   Event.createdFile "openbook-Bb.ly", Event.wroteIntro,
   Event.wroteSong "X", Event.wroteClosing]

/-- The book produced by running `wEnv` with the `"c"` transposition. -/
def wBookC : BookFile :=
  { name := "openbook-Concert.ly"
    intro := "intro Concert has 1 tunes"
    songs := [wSong cT]
    voiceBlocks := ["voice c c body body end"]
    content :=
      "intro Concert has 1 tuneshead Xvoice c c body body endlyr bodych body\x7d" }

/-- The trace of running `wEnv` with the `"c"` transposition. -/
def wTraceC : List Event :=
  [Event.parsedSong "X", Event.templatesLoaded,
   Event.createdFile "openbook-Concert.ly", Event.wroteIntro,
   Event.wroteSong "X", Event.wroteClosing]

/-- A song file whose frontmatter has no `title:` field. -/
def mtSongText : String := "composer: Y\n---\nbody"

/-- An environment containing a song file without a title. -/
def mtEnv : Env := { songFiles := [mtSongText], templates := wTemplates }

/-- A song file with no terminator line at all. -/
def nfSongText : String := "title: X\nno terminator here"

/-- An environment containing a song file without a frontmatter
terminator. -/
def nfEnv : Env := { songFiles := [nfSongText], templates := wTemplates }

/-- Template set whose intro template is missing. -/
def noIntroTemplates : Templates :=
  { wTemplates with intro := none }

/-- An environment with one valid song but a missing intro template. -/
def c6Env : Env := { songFiles := [wSongText], templates := noIntroTemplates }

theorem parseSongFile_error {t : TransposeText} {f : String}
    {e : TemplaterError} (h : parseSongFile t f = .error e) :
    e = .MissingTitle ∧ fieldValue titleKey (extractParts f).1 = none := by
  unfold parseSongFile at h
  cases hf : fieldValue titleKey (extractParts f).1 with
  | none =>
    rw [hf] at h
    exact ⟨(Except.error.injEq _ _).mp h.symm, rfl⟩
  | some ti =>
    rw [hf] at h
    cases h

theorem parseSongFile_of_no_title {t : TransposeText} {f : String}
    (h : fieldValue titleKey (extractParts f).1 = none) :
    parseSongFile t f = .error .MissingTitle := by
  unfold parseSongFile
  rw [h]

theorem parseSongFile_ok_transpose {t : TransposeText} {f : String}
    {s : Song} (h : parseSongFile t f = .ok s) : s.transpose = t := by
  unfold parseSongFile at h
  cases hf : fieldValue titleKey (extractParts f).1 with
  | none =>
    rw [hf] at h
    cases h
  | some ti =>
    rw [hf] at h
    cases h
    rfl

theorem parseSongFile_ok_has_title {t : TransposeText} {f : String}
    {s : Song} (h : parseSongFile t f = .ok s) :
    fieldValue titleKey (extractParts f).1 ≠ none := by
  unfold parseSongFile at h
  cases hf : fieldValue titleKey (extractParts f).1 with
  | none =>
    rw [hf] at h
    cases h
  | some ti => simp

theorem parseSongsTr_error_eq {t : TransposeText} {fs : List String}
    {e : TemplaterError} (h : (parseSongsTr t fs).2 = .error e) :
    e = .MissingTitle := by
  induction fs with
  | nil => cases h
  | cons f fs ih =>
    unfold parseSongsTr at h
    cases hf : parseSongFile t f with
    | error e2 =>
      rw [hf] at h
      cases h
      exact (parseSongFile_error hf).1
    | ok s =>
      rw [hf] at h
      cases hr : parseSongsTr t fs with
      | mk evs res =>
        rw [hr] at h
        cases res with
        | error e2 =>
          cases h
          exact ih (by rw [hr])
        | ok ss => cases h

theorem parseSongsTr_error_of_missing {t : TransposeText} {fs : List String}
    (h : ∃ f ∈ fs, fieldValue titleKey (extractParts f).1 = none) :
    ∃ evs, parseSongsTr t fs = (evs, .error .MissingTitle) := by
  induction fs with
  | nil =>
    obtain ⟨f, hmem, _⟩ := h
    cases hmem
  | cons f fs ih =>
    cases hf : parseSongFile t f with
    | error e =>
      refine ⟨[], ?_⟩
      unfold parseSongsTr
      rw [hf, (parseSongFile_error hf).1]
    | ok s =>
      obtain ⟨f0, hmem, hnone⟩ := h
      have hmem2 : f0 ∈ fs := by
        cases hmem with
        | head =>
          exact absurd hnone (parseSongFile_ok_has_title hf)
        | tail _ h2 => exact h2
      obtain ⟨evs, hr⟩ := ih ⟨f0, hmem2, hnone⟩
      refine ⟨Event.parsedSong s.title :: evs, ?_⟩
      unfold parseSongsTr
      rw [hf, hr]

theorem parseSongsTr_events {t : TransposeText} {fs : List String} :
    ∀ e ∈ (parseSongsTr t fs).1, ∃ ti, e = Event.parsedSong ti := by
  induction fs with
  | nil =>
    intro e he
    cases he
  | cons f fs ih =>
    intro e he
    unfold parseSongsTr at he
    cases hf : parseSongFile t f with
    | error e2 =>
      rw [hf] at he
      cases he
    | ok s =>
      rw [hf] at he
      cases hr : parseSongsTr t fs with
      | mk evs res =>
        rw [hr] at he
        cases res with
        | error e2 =>
          cases he with
          | head => exact ⟨s.title, rfl⟩
          | tail _ h2 => exact ih e (by rw [hr]; exact h2)
        | ok ss =>
          cases he with
          | head => exact ⟨s.title, rfl⟩
          | tail _ h2 => exact ih e (by rw [hr]; exact h2)

theorem parseSongsTr_ok_transpose {t : TransposeText} {fs : List String}
    {evs : List Event} {songs : List Song}
    (h : parseSongsTr t fs = (evs, .ok songs)) :
    ∀ s ∈ songs, s.transpose = t := by
  induction fs generalizing evs songs with
  | nil =>
    unfold parseSongsTr at h
    cases h
    intro s hs
    cases hs
  | cons f fs ih =>
    unfold parseSongsTr at h
    cases hf : parseSongFile t f with
    | error e =>
      rw [hf] at h
      cases h
    | ok s0 =>
      rw [hf] at h
      cases hr : parseSongsTr t fs with
      | mk evs2 res =>
        rw [hr] at h
        cases res with
        | error e => cases h
        | ok ss =>
          cases h
          intro s hs
          cases hs with
          | head => exact parseSongFile_ok_transpose hf
          | tail _ h2 => exact ih hr s h2

theorem mem_sortSongs {s : Song} {l : List Song} :
    s ∈ sortSongs l ↔ s ∈ l :=
  (List.perm_insertionSort songLe l).mem_iff

theorem init_static_ok_fields {tp : Templates} {t : TransposeText} {n : Nat}
    {tpls : LoadedTemplates} (h : init_static tp t n = .ok tpls) :
    (∀ rawIntro, tp.intro = some rawIntro →
       tpls.intro = replaceAll (replaceAll rawIntro transposeToken
         (capitalize_first_letter_ascii t.display_text)) numTunesToken
         (toString n))
    ∧ (∀ rawVoice, tp.voice = some rawVoice →
       tpls.voice = replaceAll rawVoice transposeToken t.lilypond_text) := by
  unfold init_static at h
  cases h1 : tp.intro with
  | none => rw [h1] at h; cases h
  | some rawI =>
  rw [h1] at h
  cases h2 : tp.bookpart with
  | none => rw [h2] at h; cases h
  | some rawB =>
  rw [h2] at h
  cases h3 : tp.songBody with
  | none => rw [h3] at h; cases h
  | some rawSB =>
  rw [h3] at h
  cases h4 : tp.songHeader with
  | none => rw [h4] at h; cases h
  | some rawSH =>
  rw [h4] at h
  cases h5 : tp.voice with
  | none => rw [h5] at h; cases h
  | some rawV =>
  rw [h5] at h
  cases h6 : tp.lyrics with
  | none => rw [h6] at h; cases h
  | some rawL =>
  rw [h6] at h
  cases h7 : tp.chords with
  | none => rw [h7] at h; cases h
  | some rawC =>
  rw [h7] at h
  cases h
  constructor
  · intro rawIntro hri
    cases hri
    rfl
  · intro rawVoice hrv
    cases hrv
    rfl

theorem run_ok_inv {env : Env} {t : TransposeText} {tr : List Event}
    {book : BookFile} (h : run env t = (tr, .ok book)) :
    ∃ songs evs tpls,
      parseSongsTr t env.songFiles = (evs, .ok songs)
      ∧ init_static env.templates t (sortSongs songs).length = .ok tpls
      ∧ book.name = outputFilename t
      ∧ book.intro = tpls.intro
      ∧ book.songs = sortSongs songs
      ∧ book.voiceBlocks = (sortSongs songs).map (renderVoiceBlock tpls.voice) := by
  unfold run at h
  split at h
  next evs e hps => cases h
  next evs songs hps =>
    split at h
    next name hi => cases h
    next tpls hi =>
      cases h
      exact ⟨songs, evs, tpls, hps, hi, rfl, rfl, rfl, rfl⟩

theorem run_error_cases {env : Env} {t : TransposeText} {e : TemplaterError}
    (h : (run env t).2 = .error e) :
    e = .MissingTitle ∨ ∃ name, e = .TemplateLoadFailure name := by
  unfold run at h
  split at h
  next evs e2 hps =>
    cases h
    exact .inl (parseSongsTr_error_eq (by rw [hps]))
  next evs songs hps =>
    split at h
    next name hi =>
      cases h
      exact .inr ⟨name, rfl⟩
    next tpls hi => cases h

theorem isEmpty_false_of_ne_nil {l : List Char} (h : l ≠ []) :
    l.isEmpty = false := by
  cases l with
  | nil => exact absurd rfl h
  | cons c cs => rfl

theorem occursInS_replaceAll_rep {pat s : String} (rep : String)
    (hpat : pat.data ≠ []) (h : occursInS pat s) :
    occursInS rep (replaceAll s pat rep) := by
  unfold replaceAll
  rw [if_neg (by rw [isEmpty_false_of_ne_nil hpat]; exact Bool.false_ne_true)]
  show occursIn rep.data (replaceAllAux pat.data rep.data s.data)
  exact occursIn_rep_replaceAllAux rep.data hpat s.data h

theorem occursInS_replaceAll_of_disjoint {pat w s : String} (rep : String)
    (hpat : pat.data ≠ []) (hw : w.data ≠ [])
    (hdisj : ∀ c ∈ w.data, c ∉ pat.data) (h : occursInS w s) :
    occursInS w (replaceAll s pat rep) := by
  unfold replaceAll
  rw [if_neg (by rw [isEmpty_false_of_ne_nil hpat]; exact Bool.false_ne_true)]
  show occursIn w.data (replaceAllAux pat.data rep.data s.data)
  exact occursIn_replaceAllAux_of_disjoint hpat hw hdisj s.data.length s.data
    le_rfl h

/-- C1: for every transposition key in the fixed table ("c", "bb", "eb",
"testing-f") the resolver returns exactly the pair listed in the table —
("Concert", "c c"), ("Bb", "c d"), ("Eb", "ees c"), ("Testing", "c g")
respectively — and for every other input string it returns the
unknown-transposition error rather than any `TransposeText` value. -/
theorem transpose_table_spec :
    (transpose_text "c" = .ok cT
      ∧ transpose_text "bb" = .ok bbT
      ∧ transpose_text "eb"
          = .ok { display_text := "Eb", lilypond_text := "ees c" }
      ∧ transpose_text "testing-f"
          = .ok { display_text := "Testing", lilypond_text := "c g" })
    ∧ (∀ s : String, s ≠ "c" → s ≠ "bb" → s ≠ "eb" → s ≠ "testing-f" →
        transpose_text s
          = .error ("Unable to parse transpose input of [" ++ s ++ "]")) := by
  refine ⟨⟨rfl, rfl, rfl, rfl⟩, ?_⟩
  intro s h1 h2 h3 h4
  unfold transpose_text
  split <;> simp_all

/-- Witness for C1 at the concrete unknown key "zz". -/
theorem transpose_table_spec_witness :
    ("zz" ≠ "c" ∧ "zz" ≠ "bb" ∧ "zz" ≠ "eb" ∧ "zz" ≠ "testing-f")
    ∧ transpose_text "zz"
        = .error ("Unable to parse transpose input of [" ++ "zz" ++ "]") :=
  ⟨⟨by decide, by decide, by decide, by decide⟩,
   transpose_table_spec.2 "zz" (by decide) (by decide) (by decide) (by decide)⟩

/-- C2: for every collection of parsed songs the emitted order is sorted by
title under case-sensitive (code-point, equivalently UTF-8 byte) comparison,
the sort is stable (restricting to any one title preserves the original
relative order), and for the titles ["Zebra Song", "Amazing Grace",
"Blue Moon"] the emitted order is ["Amazing Grace", "Blue Moon",
"Zebra Song"]. -/
theorem songs_sorted_stably_by_title :
    (∀ l : List Song,
        List.Pairwise (fun a b => titleLe a.title b.title = true) (sortSongs l))
    ∧ (∀ (l : List Song) (tt : String),
        (sortSongs l).filter (fun s => s.title == tt)
          = l.filter (fun s => s.title == tt))
    ∧ (sortSongs [exampleSong "Zebra Song", exampleSong "Amazing Grace",
          exampleSong "Blue Moon"]).map (fun s => s.title)
        = ["Amazing Grace", "Blue Moon", "Zebra Song"] := by
  refine ⟨?_, ?_, by decide⟩
  · intro l
    exact (List.sorted_insertionSort songLe l).imp (fun h => h)
  · intro l tt
    exact filter_sortSongs tt l

/-- C9: for every song-file text containing a terminator line, the extractor
splits the lines at the first terminator, returns the trimmed metadata lines
and trimmed body, and re-joining the untrimmed parts around the terminator
reconstructs the original text exactly (hence the extractor output
reconstructs it up to the trimmed whitespace). -/
theorem extractor_near_roundtrip (text : String)
    (h : termLine ∈ splitLinesC text.data) :
    splitLinesC text.data = preOf text ++ termLine :: postOf text
    ∧ termLine ∉ preOf text
    ∧ extractParts text
        = ((preOf text).map trimC, trimC (joinLinesC (postOf text)))
    ∧ joinLinesC (preOf text ++ termLine :: postOf text) = text.data := by
  obtain ⟨post, h1, h2, h3⟩ := split_at_term _ h
  have hpost : postOf text = post := h2
  have hsplit : splitLinesC text.data
      = preOf text ++ termLine :: postOf text := by
    rw [hpost]
    exact h1
  refine ⟨hsplit, h3, ?_, ?_⟩
  · unfold extractParts
    rw [if_pos h]
  · rw [← hsplit, joinLinesC_splitLinesC]

/-- Witness for C9 at the concrete song file "title: X\n---\nbody". -/
theorem extractor_near_roundtrip_witness :
    termLine ∈ splitLinesC wSongText.data
    ∧ (splitLinesC wSongText.data
          = preOf wSongText ++ termLine :: postOf wSongText
       ∧ termLine ∉ preOf wSongText
       ∧ extractParts wSongText
          = ((preOf wSongText).map trimC, trimC (joinLinesC (postOf wSongText)))
       ∧ joinLinesC (preOf wSongText ++ termLine :: postOf wSongText)
          = wSongText.data) :=
  ⟨by decide, extractor_near_roundtrip wSongText (by decide)⟩

/-- C10: for every invocation where `--transpose` has a missing value and
`-h`/`--help` is also present, argument parsing fails and the program exits
with code 1 without printing the help text: the `--transpose` value is parsed
before the help flag is checked. -/
theorem transpose_error_beats_help (argv : List String) (e : ArgsError)
    (hhelp : "-h" ∈ argv ∨ "--help" ∈ argv)
    (herr : findTransposeValue argv = .error e) :
    mainEntry argv
      = .exited { code := 1, printedUsage := false,
                  err := some (.argError e) } := by
  unfold mainEntry parse_args
  rw [herr]

/-- Witness for C10 at the concrete invocation `-h --transpose`. -/
theorem transpose_error_beats_help_witness :
    ("-h" ∈ ["-h", "--transpose"] ∨ "--help" ∈ ["-h", "--transpose"])
    ∧ findTransposeValue ["-h", "--transpose"]
        = .error (.optionWithoutAValue "--transpose")
    ∧ mainEntry ["-h", "--transpose"]
        = .exited { code := 1, printedUsage := false,
                    err := some (.argError (.optionWithoutAValue "--transpose")) } :=
  ⟨.inl (by decide), by decide,
   transpose_error_beats_help ["-h", "--transpose"] (.optionWithoutAValue "--transpose")
     (.inl (by decide)) (by decide)⟩

/-- C7: a run whose transposition key is not in the fixed table prints an
error message and exits with code 0; an argument-parsing failure exits with
code 1; `-h`/`--help` (when the transpose extraction itself succeeded) prints
usage and exits with code 0. -/
theorem startup_exit_codes :
    (∀ (argv : List String) (v : Option String) (rem : List String) (m : String),
        parse_args argv = .ok v rem →
        transpose_text (v.getD "c") = .error m →
        mainEntry argv
          = .exited { code := 0, printedUsage := false,
                      err := some (.resolveError m) })
    ∧ (∀ (argv : List String) (e : ArgsError),
        parse_args argv = .err e →
        mainEntry argv
          = .exited { code := 1, printedUsage := false,
                      err := some (.argError e) })
    ∧ (∀ (argv : List String) (v : Option String) (rem : List String),
        findTransposeValue argv = .ok (v, rem) →
        (rem.contains "-h" || rem.contains "--help") = true →
        mainEntry argv
          = .exited { code := 0, printedUsage := true, err := none }) := by
  refine ⟨?_, ?_, ?_⟩
  · intro argv v rem m hp ht
    unfold mainEntry
    rw [hp]
    simp only [ht]
  · intro argv e hp
    unfold mainEntry
    rw [hp]
  · intro argv v rem hf hh
    unfold mainEntry parse_args
    rw [hf]
    simp only [hh, if_true]

/-- Witness for C7: a concrete unknown key exiting 0, a concrete parse
failure exiting 1, and a concrete help invocation exiting 0. -/
theorem startup_exit_codes_witness :
    (parse_args ["--transpose", "zz"] = .ok (some "zz") []
     ∧ transpose_text "zz" = .error "Unable to parse transpose input of [zz]"
     ∧ mainEntry ["--transpose", "zz"]
        = .exited { code := 0, printedUsage := false, err := some (.resolveError "Unable to parse transpose input of [zz]") })
    ∧ (parse_args ["--transpose"] = .err (.optionWithoutAValue "--transpose")
       ∧ mainEntry ["--transpose"]
          = .exited { code := 1, printedUsage := false, err := some (.argError (.optionWithoutAValue "--transpose")) })
    ∧ (findTransposeValue ["-h"] = .ok (none, ["-h"])
       ∧ mainEntry ["-h"]
          = .exited { code := 0, printedUsage := true, err := none }) :=
  ⟨⟨by decide, by decide,
    startup_exit_codes.1 ["--transpose", "zz"] (some "zz") []
      "Unable to parse transpose input of [zz]" (by decide) (by decide)⟩,
   ⟨by decide,
    startup_exit_codes.2.1 ["--transpose"] (.optionWithoutAValue "--transpose")
      (by decide)⟩,
   ⟨by decide,
    startup_exit_codes.2.2 ["-h"] none ["-h"] (by decide) (by decide)⟩⟩

/-- C4: for every run in which some discovered song file lacks a `title:`
field in its extracted frontmatter, the run fails with a MissingTitle error
and no output file is produced. -/
theorem missing_title_aborts (env : Env) (t : TransposeText)
    (h : ∃ f ∈ env.songFiles, fieldValue titleKey (extractParts f).1 = none) :
    (run env t).2 = .error .MissingTitle
    ∧ ∀ n, Event.createdFile n ∉ (run env t).1 := by
  obtain ⟨evs, hps⟩ := parseSongsTr_error_of_missing h
  have hrun : run env t = (evs, .error .MissingTitle) := by
    unfold run
    rw [hps]
  constructor
  · rw [hrun]
  · intro n hmem
    rw [hrun] at hmem
    obtain ⟨ti, hti⟩ := parseSongsTr_events (Event.createdFile n)
      (by rw [hps]; exact hmem)
    cases hti

/-- Witness for C4 at a concrete song file lacking a title. -/
theorem missing_title_aborts_witness :
    fieldValue titleKey (extractParts mtSongText).1 = none
    ∧ (run mtEnv cT).2 = .error .MissingTitle
    ∧ Event.createdFile "openbook-Concert.ly" ∉ (run mtEnv cT).1 :=
  ⟨by decide,
   (missing_title_aborts mtEnv cT ⟨mtSongText, by decide, by decide⟩).1,
   (missing_title_aborts mtEnv cT ⟨mtSongText, by decide, by decide⟩).2
     "openbook-Concert.ly"⟩

/-- C5: the spec demands that a song file without a terminator line fail
with MissingFrontmatter; the code has no such error path — no run ever
produces a MissingFrontmatter error, and the concrete terminator-free file
"title: X\nno terminator here" is consumed silently, its whole text becoming
trimmed metadata lines with an empty body, after which the run succeeds. -/
theorem no_missing_frontmatter_error :
    (∀ (env : Env) (t : TransposeText),
        (run env t).2 ≠ .error .MissingFrontmatter)
    ∧ extractParts nfSongText
        = (["title: X".data, "no terminator here".data], [])
    ∧ (run nfEnv cT).2.isOk = true := by
  refine ⟨?_, by decide, by decide⟩
  intro env t he
  rcases run_error_cases he with h | ⟨name, h⟩
  · cases h
  · cases h

/-- Witness for C5: the no-MissingFrontmatter fact instantiated at the
concrete terminator-free environment. -/
theorem no_missing_frontmatter_error_witness :
    (run nfEnv cT).2 ≠ .error .MissingFrontmatter :=
  no_missing_frontmatter_error.1 nfEnv cT

/-- C6 counterexample: with a missing intro template and one valid song
file, the run does fail with TemplateLoadFailure and creates no file, but
the first event of the run is the parsing of a song — song processing takes
place before the template failure, refuting "aborts immediately ... before
any song processing takes place". -/
theorem template_failure_after_song_processing :
    run c6Env cT
      = ([Event.parsedSong "X", Event.templateFailed "intro"],
         .error (.TemplateLoadFailure "intro"))
    ∧ (run c6Env cT).1.head? = some (Event.parsedSong "X") :=
  ⟨by decide, by decide⟩

/-- C6 amended: a missing template file is fatal — the run fails with
TemplateLoadFailure naming that template and no output file is created —
but the abort happens after the song files were already parsed (the trace up
to the failure is exactly the song-parse events), not before song
processing. -/
theorem template_failure_aborts (env : Env) (t : TransposeText)
    (evs : List Event) (songs : List Song) (name : String)
    (hp : parseSongsTr t env.songFiles = (evs, .ok songs))
    (hi : init_static env.templates t (sortSongs songs).length = .error name) :
    run env t = (evs ++ [Event.templateFailed name],
      .error (.TemplateLoadFailure name))
    ∧ ∀ fn, Event.createdFile fn ∉ (run env t).1 := by
  have hrun : run env t = (evs ++ [Event.templateFailed name],
      .error (.TemplateLoadFailure name)) := by
    unfold run
    rw [hp]
    simp only [hi]
  refine ⟨hrun, ?_⟩
  intro fn hmem
  rw [hrun] at hmem
  rcases List.mem_append.mp hmem with h | h
  · obtain ⟨ti, hti⟩ := parseSongsTr_events (Event.createdFile fn)
      (by rw [hp]; exact h)
    cases hti
  · simp at h

/-- Witness for the amended C6 at the concrete missing-intro environment. -/
theorem template_failure_aborts_witness :
    parseSongsTr cT c6Env.songFiles = ([Event.parsedSong "X"], .ok [wSong cT])
    ∧ init_static c6Env.templates cT (sortSongs [wSong cT]).length
        = .error "intro"
    ∧ run c6Env cT
        = ([Event.parsedSong "X"] ++ [Event.templateFailed "intro"],
           .error (.TemplateLoadFailure "intro"))
    ∧ Event.createdFile "openbook-Concert.ly" ∉ (run c6Env cT).1 :=
  ⟨by decide, by decide,
   (template_failure_aborts c6Env cT [Event.parsedSong "X"] [wSong cT] "intro"
     (by decide) (by decide)).1,
   (template_failure_aborts c6Env cT [Event.parsedSong "X"] [wSong cT] "intro"
     (by decide) (by decide)).2 "openbook-Concert.ly"⟩

/-- C3: for key "bb" the output file is named exactly "openbook-Bb.ly", and,
provided the raw voice template contains the %%TRANSPOSE%% placeholder,
every rendered voice block in the output contains the literal directive
"c d". -/
theorem bb_filename_and_voice_directive (env : Env) (t : TransposeText)
    (hres : transpose_text "bb" = .ok t) (tr : List Event) (book : BookFile)
    (hrun : run env t = (tr, .ok book)) :
    book.name = "openbook-Bb.ly"
    ∧ ∀ raw, env.templates.voice = some raw →
        occursInS transposeToken raw →
        ∀ vb ∈ book.voiceBlocks, occursInS "c d" vb := by
  have ht : t = bbT := by
    have h2 := hres
    rw [show transpose_text "bb" = Except.ok bbT from rfl] at h2
    exact ((Except.ok.injEq _ _).mp h2).symm
  subst ht
  obtain ⟨songs, evs, tpls, hps, hi, hname, hintro, hsongs, hvoice⟩ :=
    run_ok_inv hrun
  constructor
  · rw [hname]
    decide
  · intro raw hraw hocc vb hvb
    have htplv : tpls.voice = replaceAll raw transposeToken bbT.lilypond_text :=
      (init_static_ok_fields hi).2 raw hraw
    rw [hvoice] at hvb
    obtain ⟨s, hs, rfl⟩ := List.mem_map.mp hvb
    unfold renderVoiceBlock
    rw [htplv]
    apply occursInS_replaceAll_of_disjoint
    · decide
    · decide
    · decide
    · exact occursInS_replaceAll_rep _ (by decide) hocc

/-- Witness for C3 at the concrete environment `wEnv`. -/
theorem bb_filename_and_voice_directive_witness :
    (transpose_text "bb" = .ok bbT ∧ run wEnv bbT = (wTraceBb, .ok wBookBb))
    ∧ (wBookBb.name = "openbook-Bb.ly"
       ∧ occursInS "c d" "voice c d body body end") :=
  ⟨⟨by decide, by decide⟩,
   ⟨(bb_filename_and_voice_directive wEnv bbT (by decide) wTraceBb wBookBb
       (by decide)).1,
    (bb_filename_and_voice_directive wEnv bbT (by decide) wTraceBb wBookBb
       (by decide)).2
      "voice %%TRANSPOSE%% body %%SONG_BODY%% end" (by decide)
      ⟨"voice ".data, " body %%SONG_BODY%% end".data, by decide⟩
      "voice c d body body end" (by decide)⟩⟩

/-- C8: every run references a single transposition value — each song in the
output carries the one TransposeText the run was started with, the intro is
rendered by substituting that value's (capitalized) display text, and the
voice blocks are rendered from the voice template with that same value's
lilypond directive substituted. -/
theorem single_transposition_flows (argv : List String) (env : Env)
    (t : TransposeText) (hm : mainEntry argv = .proceeded t)
    (tr : List Event) (book : BookFile)
    (hrun : run env t = (tr, .ok book)) :
    (∀ s ∈ book.songs, s.transpose = t)
    ∧ (∀ rawI, env.templates.intro = some rawI →
        book.intro = replaceAll (replaceAll rawI transposeToken
          (capitalize_first_letter_ascii t.display_text)) numTunesToken
          (toString book.songs.length))
    ∧ (∀ rawV, env.templates.voice = some rawV →
        book.voiceBlocks = book.songs.map
          (renderVoiceBlock (replaceAll rawV transposeToken t.lilypond_text))) := by
  obtain ⟨songs, evs, tpls, hps, hi, hname, hintro, hsongs, hvoice⟩ :=
    run_ok_inv hrun
  refine ⟨?_, ?_, ?_⟩
  · intro s hs
    rw [hsongs] at hs
    exact parseSongsTr_ok_transpose hps s (mem_sortSongs.mp hs)
  · intro rawI hraw
    rw [hintro, (init_static_ok_fields hi).1 rawI hraw, hsongs]
  · intro rawV hraw
    rw [hvoice, (init_static_ok_fields hi).2 rawV hraw, hsongs]

/-- Witness for C8 at the concrete environment `wEnv` with the default
key resolved from an empty command line. -/
theorem single_transposition_flows_witness :
    (mainEntry ([] : List String) = .proceeded cT
     ∧ run wEnv cT = (wTraceC, .ok wBookC))
    ∧ (wSong cT).transpose = cT
    ∧ wBookC.intro = replaceAll (replaceAll
        "intro %%TRANSPOSE%% has %%NUM_TUNES%% tunes" transposeToken
        (capitalize_first_letter_ascii cT.display_text)) numTunesToken
        (toString wBookC.songs.length)
    ∧ wBookC.voiceBlocks = wBookC.songs.map
        (renderVoiceBlock (replaceAll
          "voice %%TRANSPOSE%% body %%SONG_BODY%% end" transposeToken
          cT.lilypond_text)) :=
  ⟨⟨by decide, by decide⟩,
   (single_transposition_flows [] wEnv cT (by decide) wTraceC wBookC
     (by decide)).1 (wSong cT) (by decide),
   (single_transposition_flows [] wEnv cT (by decide) wTraceC wBookC
     (by decide)).2.1 _ rfl,
   (single_transposition_flows [] wEnv cT (by decide) wTraceC wBookC
     (by decide)).2.2 _ rfl⟩

end OpenBook
